import Mathlib

/-!
Shallow embedding of the NRL-finder pipeline (src/bin/nrl.py, function
hunt_nrls, lines 63-108, together with the scipy.signal.butter validation it
calls on line 79).

Modelling conventions:
- The filtered histogram values (numpy float64 in the source) are modelled as
  exact rationals; real arithmetic is exact, float rounding is abstracted.
- signal.filtfilt is an external numeric routine; it is modelled as an
  arbitrary function from the raw count sub-range to a rational signal, passed
  as an explicit parameter, so every theorem about the downstream stages is
  quantified over all possible filtered signals.
- Python exceptions are modelled with the Except monad over PyError.  numpy's
  np.max raises ValueError on an empty sequence; scipy's butter raises
  ValueError when the normalized critical frequency is outside (0, 1); numpy
  fancy indexing raises IndexError when an index is out of bounds, and mins[0]
  raises IndexError when mins is empty.
- The spec postulates exception classes EmptyInputError and InvalidCutoffError
  which do not occur anywhere in the source; they are included as PyError
  constructors only so that the spec's error claims can be stated and compared
  with the behaviour of the code.
-/

/-- Error outcomes of the pipeline.  valueError and indexError model Python's
ValueError and IndexError, which are the only exceptions the source can
actually raise in the modelled region.  emptyInputError and invalidCutoffError
are the error classes named by the spec; the source never defines or raises
them, and they are present only so the spec's claims can be stated. -/
inductive PyError where
  | valueError
  | indexError
  | emptyInputError
  | invalidCutoffError
deriving DecidableEq, Repr

/-- Translation of np.max(lengths) (line 69): the maximum element of the list,
raising ValueError on an empty input ("zero-size array to reduction operation
maximum which has no identity"). -/
def npMax : List ℕ → Except PyError ℕ
  | [] => .error .valueError
  | x :: xs => .ok (xs.foldl max x)

/-- Translation of np.arange(0.5, m + 1) (line 69): the half-integer bin edges
0.5, 1.5, ..., m + 0.5 handed to np.histogram. -/
def arangeHalf (m : ℕ) : List ℚ := (List.range (m + 1)).map (fun (k : ℕ) => (k : ℚ) + 1/2)

/-- Bin membership test of np.histogram(lengths, bin_edges) (line 70) for bin
index i out of m bins with edges from arangeHalf: a value lands in bin i when
edge i <= value < edge (i+1), except that the last bin is closed on the
right. -/
def inBin (m i L : ℕ) : Bool :=
  decide ((i : ℚ) + 1/2 ≤ (L : ℚ)) &&
    (if i = m - 1 then decide ((L : ℚ) ≤ (i : ℚ) + 3/2)
     else decide ((L : ℚ) < (i : ℚ) + 3/2))

/-- Translation of hist[0], the per-bin counts of np.histogram (lines 70, 72). -/
def histogramCounts (m : ℕ) (lengths : List ℕ) : List ℕ :=
  (List.range m).map (fun i => (lengths.filter (inBin m i)).length)

/-- Translation of lines 69-72 of hunt_nrls: compute the maximum length, the
histogram counts, and the book-kept bin edges bin_edges[1:] - 0.5. -/
def histogramStage (lengths : List ℕ) : Except PyError (List ℚ × List ℕ) :=
  match npMax lengths with
  | .error e => .error e
  | .ok m => .ok (((arangeHalf m).drop 1).map (fun x => x - 1/2), histogramCounts m lengths)

/-- Translation of the cutoff validation performed by
signal.butter(6, freq_cutoff*1.0/1000) (line 79): scipy's iirfilter raises
ValueError ("Digital filter critical frequencies must be 0 < Wn < 1") unless
the normalized critical frequency lies strictly between 0 and 1. -/
def butterCheck (freq_cutoff : ℚ) : Except PyError Unit :=
  if 0 < freq_cutoff * 1 / 1000 ∧ freq_cutoff * 1 / 1000 < 1 then .ok ()
  else .error .valueError

/-- Translation of np.diff (lines 84-85): successive differences. -/
def npDiff (xs : List ℚ) : List ℚ := List.zipWith (· - ·) xs.tail xs

/-- Translation of np.diff(np.diff(counts_f)) (line 85), the numerical second
derivative ddcounts. -/
def ddcounts (cf : List ℚ) : List ℚ := npDiff (npDiff cf)

/-- Translation of np.append(np.array(False), np.multiply(dcounts, np.roll(dcounts, -1)) < 0)
(line 86): a leading False followed by the strict-negativity mask of the
products of each first-derivative sample with its circular successor.
np.roll(d, -1) rotates the array left by one, so the final product pairs the
last derivative sample with the first one. -/
def critMask (cf : List ℚ) : List Bool :=
  false :: (List.zipWith (· * ·) (npDiff cf) ((npDiff cf).rotate 1)).map
    (fun q => decide (q < 0))

/-- Translation of np.where(bs)[0]: the indices at which a boolean array is
True, in increasing order. -/
def npWhere (bs : List Bool) : List ℕ :=
  (List.range bs.length).filter (fun i => bs.getD i false)

/-- Translation of crt_pt before the offset re-base (line 86): the candidate
critical-point indices, local to the filtered sub-range. -/
def crtLocal (cf : List ℚ) : List ℕ := npWhere (critMask cf)

/-- Translation of numpy integer-array indexing xs[i] with a possibly negative
index: a negative i counts from the end (i + len), and any resulting position
outside [0, len) raises IndexError (modelled as none). -/
def npGet (xs : List ℚ) (i : ℤ) : Option ℚ :=
  let j : ℤ := if i < 0 then i + xs.length else i
  if 0 ≤ j then xs.get? j.toNat else none

/-- Translation of the element ddcounts[crt_pt - 2] (line 87) for one
candidate whose filtered-sub-range-local index is i. -/
def sdtAt (cf : List ℚ) (i : ℕ) : Option ℚ := npGet (ddcounts cf) ((i : ℤ) - 2)

/-- Second-derivative test sdt < 0 (line 91) at one candidate. -/
def sdtNeg (cf : List ℚ) (i : ℕ) : Bool :=
  match sdtAt cf i with
  | some s => decide (s < 0)
  | none => false

/-- Second-derivative test sdt > 0 (line 92) at one candidate. -/
def sdtPos (cf : List ℚ) (i : ℕ) : Bool :=
  match sdtAt cf i with
  | some s => decide (0 < s)
  | none => false

/-- Translation of maxes = crt_pt[sdt < 0] after crt_pt = crt_pt + offset
(lines 88, 91): the classified maxima, re-based into full-histogram index
space. -/
def maxesPre (cf : List ℚ) (offset : ℕ) : List ℕ :=
  ((crtLocal cf).filter (sdtNeg cf)).map (· + offset)

/-- Translation of mins = crt_pt[sdt > 0] after crt_pt = crt_pt + offset
(lines 88, 92): the classified minima, re-based into full-histogram index
space. -/
def minsPre (cf : List ℚ) (offset : ℕ) : List ℕ :=
  ((crtLocal cf).filter (sdtPos cf)).map (· + offset)

/-- Translation of lines 86-92: computing sdt = ddcounts[crt_pt - 2] raises
IndexError if any candidate's index is out of numpy's index range; otherwise
the candidates are split into maxima and minima by the sign of the second
derivative. -/
def classify (cf : List ℚ) (offset : ℕ) : Except PyError (List ℕ × List ℕ) :=
  if (crtLocal cf).all (fun i => (sdtAt cf i).isSome) then
    .ok (maxesPre cf offset, minsPre cf offset)
  else .error .indexError

/-- Result record assembled by hunt_nrls (lines 100-108); the fields
bin_edges, counts, bin_edges_f and counts_f of the output dictionary are the
unmodified outputs of the earlier stages (histogramStage and the filter), so
only the computed maxes, mins and auc are carried here. -/
structure NrlOut where
  maxes : List ℕ
  mins : List ℕ
  auc : ℕ
deriving DecidableEq, Repr

/-- Translation of the threshold pruning maxes[counts[maxes] > count_thr]
(lines 96-97): keep the indices whose raw count strictly exceeds the
threshold. -/
def pruneByCount (counts : List ℕ) (count_thr : ℕ) (xs : List ℕ) : List ℕ :=
  xs.filter (fun i => decide (count_thr < counts.getD i 0))

/-- Translation of lines 86-97 of hunt_nrls: classify extrema, take
auc = np.sum(counts[mins[0]:]) from the first classified (unpruned) minimum
(IndexError when there is none), then prune both extremum lists by the count
threshold (numpy indexing counts[maxes] raises IndexError on an out-of-range
index). -/
def extremaStage (counts : List ℕ) (cf : List ℚ) (offset count_thr : ℕ) :
    Except PyError NrlOut :=
  match classify cf offset with
  | .error e => .error e
  | .ok (pmx, pmn) =>
    match pmn.head? with
    | none => .error .indexError
    | some m0 =>
      if pmx.all (fun i => decide (i < counts.length)) then
        if pmn.all (fun i => decide (i < counts.length)) then
          .ok ⟨pruneByCount counts count_thr pmx, pruneByCount counts count_thr pmn,
               (counts.drop m0).sum⟩
        else .error .indexError
      else .error .indexError

/-- Translation of hunt_nrls (lines 63-108).  The parameter filt stands for
counts_tf ↦ signal.filtfilt(b, a, counts_tf) (line 80), the zero-phase
application of the designed Butterworth filter; it is kept abstract because it
is external floating-point numerics, so every statement below holds for every
possible filter output. -/
def hunt_nrls (filt : List ℕ → List ℚ) (lengths : List ℕ) (offset : ℕ)
    (freq_cutoff : ℚ) (count_thr : ℕ) : Except PyError NrlOut :=
  match histogramStage lengths with
  | .error e => .error e
  | .ok (_, counts) =>
    match butterCheck freq_cutoff with
    | .error e => .error e
    | .ok _ => extremaStage counts (filt (counts.drop offset)) offset count_thr

/-! Helper lemmas about the embedded operations.  These are shared
infrastructure; the claim theorems appear afterwards. -/

theorem npDiff_length (xs : List ℚ) : (npDiff xs).length = xs.length - 1 := by
  simp only [npDiff, List.length_zipWith, List.length_tail]
  omega

theorem ddcounts_length (cf : List ℚ) :
    (ddcounts cf).length = (npDiff cf).length - 1 := by
  simp [ddcounts, npDiff_length]

theorem critMask_length (cf : List ℚ) :
    (critMask cf).length = (npDiff cf).length + 1 := by
  simp [critMask, List.length_zipWith, List.length_rotate]

theorem mem_npWhere {bs : List Bool} {i : ℕ} :
    i ∈ npWhere bs ↔ i < bs.length ∧ bs.getD i false = true := by
  simp [npWhere, List.mem_filter, List.mem_range]

theorem critMask_getD (cf : List ℚ) (j : ℕ) (hj : j < (npDiff cf).length) :
    (critMask cf).getD (j + 1) false =
      decide ((npDiff cf).getD j 0 *
        (npDiff cf).getD ((j + 1) % (npDiff cf).length) 0 < 0) := by
  have hmod : (j + 1) % (npDiff cf).length < (npDiff cf).length :=
    Nat.mod_lt _ (by omega)
  have hrot : j < ((npDiff cf).rotate 1).length := by
    rw [List.length_rotate]; exact hj
  simp only [critMask, List.getD_cons_succ]
  rw [List.getD_eq_getElem?_getD, List.getElem?_map, List.getElem?_zipWith',
    List.getElem?_eq_getElem hj, List.getElem?_eq_getElem hrot]
  rw [List.getD_eq_getElem?_getD, List.getD_eq_getElem?_getD,
    List.getElem?_eq_getElem hj, List.getElem?_eq_getElem hmod]
  simp [List.getElem_rotate]

theorem mem_crtLocal {cf : List ℚ} {i : ℕ} :
    i ∈ crtLocal cf ↔
      1 ≤ i ∧ i ≤ (npDiff cf).length ∧
        (npDiff cf).getD (i - 1) 0 *
          (npDiff cf).getD (i % (npDiff cf).length) 0 < 0 := by
  rw [crtLocal, mem_npWhere, critMask_length]
  cases i with
  | zero => simp [critMask]
  | succ j =>
    constructor
    · rintro ⟨hb, hget⟩
      have hj : j < (npDiff cf).length := by omega
      rw [critMask_getD cf j hj, decide_eq_true_eq] at hget
      exact ⟨by omega, by omega, by simpa using hget⟩
    · rintro ⟨-, h2, hprod⟩
      have hj : j < (npDiff cf).length := by omega
      refine ⟨by omega, ?_⟩
      rw [critMask_getD cf j hj, decide_eq_true_eq]
      simpa using hprod

theorem two_le_of_mem_crtLocal {cf : List ℚ} {i : ℕ} (h : i ∈ crtLocal cf) :
    2 ≤ (npDiff cf).length := by
  rw [mem_crtLocal] at h
  obtain ⟨h1, h2, hprod⟩ := h
  by_contra hlt
  have hone : (npDiff cf).length = 1 := by omega
  have hi : i = 1 := by omega
  rw [hone, hi] at hprod
  simp only [Nat.mod_self, Nat.sub_self] at hprod
  exact (mul_self_nonneg ((npDiff cf).getD 0 0)).not_lt (by simpa using hprod)

theorem npGet_isSome_of {xs : List ℚ} {i : ℤ} (h1 : -(xs.length : ℤ) ≤ i)
    (h2 : i < xs.length) : (npGet xs i).isSome = true := by
  unfold npGet
  by_cases hi : i < 0
  · have hj : (0 : ℤ) ≤ i + xs.length := by omega
    have hlt : (i + (xs.length : ℤ)).toNat < xs.length := by omega
    simp [hi, hj, List.get?_eq_getElem?, List.getElem?_eq_getElem hlt]
  · have hj : (0 : ℤ) ≤ i := by omega
    have hlt : i.toNat < xs.length := by omega
    simp [hi, hj, List.get?_eq_getElem?, List.getElem?_eq_getElem hlt]

theorem sdtAt_isSome {cf : List ℚ} {i : ℕ} (h : i ∈ crtLocal cf) :
    (sdtAt cf i).isSome = true := by
  have h2 := two_le_of_mem_crtLocal h
  obtain ⟨hi1, hi2, -⟩ := mem_crtLocal.mp h
  have hdd := ddcounts_length cf
  apply npGet_isSome_of
  · rw [hdd]; omega
  · rw [hdd]; omega

theorem sdtAt_one (cf : List ℚ) (h : 1 ∈ crtLocal cf) :
    sdtAt cf 1 = (ddcounts cf).getLast? := by
  have h2 := two_le_of_mem_crtLocal h
  have hdd : 1 ≤ (ddcounts cf).length := by rw [ddcounts_length]; omega
  unfold sdtAt npGet
  have hneg : ((1 : ℕ) : ℤ) - 2 < 0 := by norm_num
  rw [if_pos hneg, if_pos (by push_cast; omega)]
  rw [List.get?_eq_getElem?, List.getLast?_eq_getElem?]
  congr 1
  push_cast
  omega

theorem classify_ok {cf : List ℚ} {offset : ℕ} {p : List ℕ × List ℕ}
    (h : classify cf offset = .ok p) :
    p = (maxesPre cf offset, minsPre cf offset) := by
  unfold classify at h
  split at h
  · cases h; rfl
  · cases h

theorem classify_isOk (cf : List ℚ) (offset : ℕ) :
    classify cf offset = .ok (maxesPre cf offset, minsPre cf offset) := by
  unfold classify
  rw [if_pos]
  rw [List.all_eq_true]
  intro i hi
  exact sdtAt_isSome hi

theorem extremaStage_ok {counts : List ℕ} {cf : List ℚ} {offset thr : ℕ}
    {out : NrlOut} (h : extremaStage counts cf offset thr = .ok out) :
    ∃ m0, (minsPre cf offset).head? = some m0 ∧
      ((maxesPre cf offset).all (fun i => decide (i < counts.length)) = true) ∧
      ((minsPre cf offset).all (fun i => decide (i < counts.length)) = true) ∧
      out = ⟨pruneByCount counts thr (maxesPre cf offset),
             pruneByCount counts thr (minsPre cf offset),
             (counts.drop m0).sum⟩ := by
  unfold extremaStage at h
  split at h
  · cases h
  · rename_i pmx pmn heq
    have hp := classify_ok heq
    injection hp with hp1 hp2
    subst hp1
    subst hp2
    split at h
    · cases h
    · rename_i m0 hm0
      split_ifs at h with h1 h2
      cases h
      exact ⟨m0, hm0, h1, h2, rfl⟩

theorem extremaStage_ok_thr {counts : List ℕ} {cf : List ℚ} {offset thr : ℕ}
    {out : NrlOut} (h : extremaStage counts cf offset thr = .ok out) (thr2 : ℕ) :
    extremaStage counts cf offset thr2 =
      .ok ⟨pruneByCount counts thr2 (maxesPre cf offset),
           pruneByCount counts thr2 (minsPre cf offset), out.auc⟩ := by
  obtain ⟨m0, hm, h1, h2, hout⟩ := extremaStage_ok h
  simp [extremaStage, classify_isOk cf offset, hm, h1, h2, hout]

theorem hunt_nrls_ok {filt : List ℕ → List ℚ} {lengths : List ℕ} {offset : ℕ}
    {fc : ℚ} {thr : ℕ} {out : NrlOut}
    (h : hunt_nrls filt lengths offset fc thr = .ok out) :
    ∃ edges counts, histogramStage lengths = .ok (edges, counts) ∧
      butterCheck fc = .ok () ∧
      extremaStage counts (filt (counts.drop offset)) offset thr = .ok out := by
  unfold hunt_nrls at h
  split at h
  · cases h
  · rename_i edges counts heq
    split at h
    · cases h
    · rename_i u hbc
      cases u
      exact ⟨edges, counts, heq, hbc, h⟩

theorem crtLocal_pairwise (cf : List ℚ) : (crtLocal cf).Pairwise (· < ·) :=
  (List.pairwise_lt_range _).filter _

theorem maxesPre_pairwise (cf : List ℚ) (offset : ℕ) :
    (maxesPre cf offset).Pairwise (· < ·) := by
  rw [maxesPre, List.pairwise_map]
  exact ((crtLocal_pairwise cf).filter _).imp (fun hab => by omega)

theorem minsPre_pairwise (cf : List ℚ) (offset : ℕ) :
    (minsPre cf offset).Pairwise (· < ·) := by
  rw [minsPre, List.pairwise_map]
  exact ((crtLocal_pairwise cf).filter _).imp (fun hab => by omega)

theorem maxesPre_disjoint_minsPre (cf : List ℚ) (offset : ℕ) :
    ∀ x ∈ maxesPre cf offset, x ∉ minsPre cf offset := by
  intro x hx hy
  rw [maxesPre, List.mem_map] at hx
  obtain ⟨i, hi, rfl⟩ := hx
  rw [minsPre, List.mem_map] at hy
  obtain ⟨j, hj, hij⟩ := hy
  have hji : j = i := by omega
  subst hji
  rw [List.mem_filter] at hi hj
  have hneg := hi.2
  have hpos := hj.2
  cases hs : sdtAt cf j with
  | none =>
    simp [sdtNeg, hs] at hneg
  | some s =>
    simp [sdtNeg, hs] at hneg
    simp [sdtPos, hs] at hpos
    exact absurd hpos (not_lt.mpr hneg.le)

theorem head?_le_of_pairwise {l : List ℕ} (hs : l.Pairwise (· < ·)) {a : ℕ}
    (h : l.head? = some a) : ∀ x ∈ l, a ≤ x := by
  cases l with
  | nil => cases h
  | cons b t =>
    injection h with hb
    subst hb
    intro x hx
    rcases List.mem_cons.mp hx with rfl | hx
    · exact le_refl x
    · exact le_of_lt ((List.pairwise_cons.mp hs).1 x hx)

/-! Concrete evaluations used by counterexamples and witnesses. -/

theorem eval_crtLocal_0101 : crtLocal [0, 1, 0, 1] = [1, 2] := by
  norm_num [crtLocal, critMask, npDiff, npWhere, List.rotate]
  decide

theorem eval_sdtAt1 : sdtAt [0, 1, 0, 1] 1 = some 2 := by
  norm_num [sdtAt, ddcounts, npDiff, npGet]

theorem eval_sdtAt2 : sdtAt [0, 1, 0, 1] 2 = some (-2) := by
  norm_num [sdtAt, ddcounts, npDiff, npGet]

theorem eval_maxesPre_0101 : maxesPre [0, 1, 0, 1] 0 = [2] := by
  norm_num [maxesPre, eval_crtLocal_0101, List.filter, sdtNeg, eval_sdtAt1, eval_sdtAt2]

theorem eval_minsPre_0101 : minsPre [0, 1, 0, 1] 0 = [1] := by
  norm_num [minsPre, eval_crtLocal_0101, List.filter, sdtPos, eval_sdtAt1, eval_sdtAt2]

theorem eval_mem_one_crtLocal : 1 ∈ crtLocal [0, 1, 0, 1] := by
  rw [eval_crtLocal_0101]
  decide

theorem eval_extrema_zero_thr :
    extremaStage [5, 0, 5, 2] [0, 1, 0, 1] 0 0 = .ok ⟨[2], [], 7⟩ := by
  simp [extremaStage, classify_isOk, eval_maxesPre_0101, eval_minsPre_0101, pruneByCount]

theorem eval_hist_03 : histogramStage [0, 3] = .ok ([1, 2, 3], [0, 0, 1]) := by
  norm_num [histogramStage, npMax, histogramCounts, arangeHalf, inBin, List.range_succ]

theorem eval_hist_3 : histogramStage [3] = .ok ([1, 2, 3], [0, 0, 1]) := by
  norm_num [histogramStage, npMax, histogramCounts, arangeHalf, inBin, List.range_succ]

theorem eval_hist_123 : histogramStage [1, 2, 2, 3, 3, 3] = .ok ([1, 2, 3], [1, 2, 3]) := by
  norm_num [histogramStage, npMax, histogramCounts, arangeHalf, inBin, List.range_succ]

theorem eval_hunt_40_0 :
    hunt_nrls (fun _ => [0, 1, 0, 1]) [1, 2, 2, 3, 3, 3] 0 40 0 = .ok ⟨[2], [1], 5⟩ := by
  norm_num [hunt_nrls, eval_hist_123, butterCheck, extremaStage, classify_isOk,
    eval_maxesPre_0101, eval_minsPre_0101, pruneByCount]

theorem eval_hunt_40_10 :
    hunt_nrls (fun _ => [0, 1, 0, 1]) [1, 2, 2, 3, 3, 3] 0 40 10 = .ok ⟨[], [], 5⟩ := by
  norm_num [hunt_nrls, eval_hist_123, butterCheck, extremaStage, classify_isOk,
    eval_maxesPre_0101, eval_minsPre_0101, pruneByCount]

/-! Claim theorems. -/

/-- C1, counterexample to the claim as stated: on the filtered signal
[0, 1, 2, 1] the code flags a candidate critical point at re-based local
index 3, which is the last element of the sub-range and does NOT satisfy the
claimed condition, because there is no first-derivative sample d[3]: the
first derivative [1, 1, -1] has length 3, so no strict sign change between
two consecutive samples d[2], d[3] exists.  The candidate arises from
np.roll's wraparound product d[2] * d[0] < 0. -/
theorem C1_counterexample :
    3 ∈ crtLocal [0, 1, 2, 1] ∧
      ¬ (1 ≤ 3 ∧ 3 < (npDiff [0, 1, 2, 1]).length ∧
          (npDiff [0, 1, 2, 1]).getD 2 0 * (npDiff [0, 1, 2, 1]).getD 3 0 < 0) := by
  constructor
  · norm_num [crtLocal, critMask, npDiff, npWhere, List.rotate]
  · rintro ⟨-, h2, -⟩
    rw [npDiff_length] at h2
    simp at h2

/-- C1 (amended): a candidate critical point exists at re-based local index i
exactly when 1 ≤ i ≤ ℓ (ℓ the number of first-derivative samples) and
d[i-1] * d[i % ℓ] < 0.  For i < ℓ this is the claimed strict sign change
d[i-1] * d[i] < 0 between consecutive samples, and equal-to-zero transitions
are never flagged; but additionally a candidate can appear at the LAST index
i = ℓ of the filtered sub-range, exactly when d[ℓ-1] * d[0] < 0, i.e. the
last derivative sample is compared against the first one because of the
circular np.roll(dcounts, -1). -/
theorem C1_candidate_iff (cf : List ℚ) (i : ℕ) :
    i ∈ crtLocal cf ↔
      1 ≤ i ∧ i ≤ (npDiff cf).length ∧
        (npDiff cf).getD (i - 1) 0 *
          (npDiff cf).getD (i % (npDiff cf).length) 0 < 0 :=
  mem_crtLocal

/-- C8: on every successful run the returned maxima and minima index lists
are disjoint, and so are the classified (pre-pruning) maxima and minima for
every filtered signal and offset. -/
theorem C8_maxes_mins_disjoint (filt : List ℕ → List ℚ) (lengths : List ℕ)
    (offset : ℕ) (fc : ℚ) (thr : ℕ) (out : NrlOut)
    (h : hunt_nrls filt lengths offset fc thr = .ok out) :
    (∀ x ∈ out.maxes, x ∉ out.mins) ∧
      ∀ (cf : List ℚ) (off : ℕ), ∀ x ∈ maxesPre cf off, x ∉ minsPre cf off := by
  refine ⟨?_, fun cf off => maxesPre_disjoint_minsPre cf off⟩
  obtain ⟨edges, counts, -, -, he⟩ := hunt_nrls_ok h
  obtain ⟨m0, -, -, -, hout⟩ := extremaStage_ok he
  subst hout
  intro x hx hy
  simp only [pruneByCount] at hx hy
  exact maxesPre_disjoint_minsPre _ _ x (List.mem_filter.mp hx).1
    (List.mem_filter.mp hy).1

/-- C8 witness: the disjointness theorem applied to a concrete successful
run of the pipeline. -/
theorem C8_witness :
    (∀ x ∈ (NrlOut.mk [2] [1] 5).maxes, x ∉ (NrlOut.mk [2] [1] 5).mins) ∧
      ∀ (cf : List ℚ) (off : ℕ), ∀ x ∈ maxesPre cf off, x ∉ minsPre cf off :=
  C8_maxes_mins_disjoint (fun _ => [0, 1, 0, 1]) [1, 2, 2, 3, 3, 3] 0 40 0
    ⟨[2], [1], 5⟩ eval_hunt_40_0

/-- C9: for every filtered signal, evaluating the second-derivative test
ddcounts[crt_pt - 2] never raises an out-of-bounds error at any candidate,
and a candidate at filtered-sub-range-local index 1 reads the second
derivative at Python index -1, i.e. the LAST element of the second-derivative
array: it is classified by the curvature at the far end of the filtered
sub-range. -/
theorem C9_wraparound_classification (cf : List ℚ) :
    (∀ i ∈ crtLocal cf, (sdtAt cf i).isSome = true) ∧
      (1 ∈ crtLocal cf → sdtAt cf 1 = (ddcounts cf).getLast?) :=
  ⟨fun _ hi => sdtAt_isSome hi, fun h => sdtAt_one cf h⟩

/-- C9 witness: on the filtered signal [0, 1, 0, 1] there is a candidate at
local index 1 and its second-derivative value is the last element of the
second-derivative array. -/
theorem C9_witness :
    1 ∈ crtLocal [0, 1, 0, 1] ∧
      sdtAt [0, 1, 0, 1] 1 = (ddcounts [0, 1, 0, 1]).getLast? :=
  ⟨eval_mem_one_crtLocal,
    (C9_wraparound_classification [0, 1, 0, 1]).2 eval_mem_one_crtLocal⟩

/-- C10: on every successful run the returned maxes and mins lists are
strictly increasing, and for every filtered signal the classified
(pre-pruning) extrema lists are strictly increasing, so the element mins[0]
used to anchor the AUC computation is the leftmost classified minimum. -/
theorem C10_sorted_extrema (filt : List ℕ → List ℚ) (lengths : List ℕ)
    (offset : ℕ) (fc : ℚ) (thr : ℕ) (out : NrlOut)
    (h : hunt_nrls filt lengths offset fc thr = .ok out) :
    out.maxes.Pairwise (· < ·) ∧ out.mins.Pairwise (· < ·) ∧
      ∀ (cf : List ℚ) (off : ℕ),
        (maxesPre cf off).Pairwise (· < ·) ∧ (minsPre cf off).Pairwise (· < ·) ∧
          ∀ m0, (minsPre cf off).head? = some m0 → ∀ x ∈ minsPre cf off, m0 ≤ x := by
  obtain ⟨edges, counts, -, -, he⟩ := hunt_nrls_ok h
  obtain ⟨m0, -, -, -, hout⟩ := extremaStage_ok he
  subst hout
  refine ⟨?_, ?_, fun cf off =>
    ⟨maxesPre_pairwise cf off, minsPre_pairwise cf off,
      fun m1 hm1 => head?_le_of_pairwise (minsPre_pairwise cf off) hm1⟩⟩
  · exact (maxesPre_pairwise _ _).filter _
  · exact (minsPre_pairwise _ _).filter _

/-- C10 witness: the sortedness theorem applied to a concrete successful run. -/
theorem C10_witness :
    (NrlOut.mk [2] [1] 5).maxes.Pairwise (· < ·) ∧
      (NrlOut.mk [2] [1] 5).mins.Pairwise (· < ·) ∧
      ∀ (cf : List ℚ) (off : ℕ),
        (maxesPre cf off).Pairwise (· < ·) ∧ (minsPre cf off).Pairwise (· < ·) ∧
          ∀ m0, (minsPre cf off).head? = some m0 → ∀ x ∈ minsPre cf off, m0 ≤ x :=
  C10_sorted_extrema (fun _ => [0, 1, 0, 1]) [1, 2, 2, 3, 3, 3] 0 40 0
    ⟨[2], [1], 5⟩ eval_hunt_40_0

/-- C2: on every successful run, the AUC in the result equals the sum of the
raw histogram counts from the first classified (pre-threshold-pruning)
minimum to the end of the histogram, and the same pipeline run with any other
count threshold succeeds with the same AUC: the AUC does not depend on
count_thr. -/
theorem C2_auc_first_unpruned_min (filt : List ℕ → List ℚ) (lengths : List ℕ)
    (offset : ℕ) (fc : ℚ) (thr : ℕ) (out : NrlOut)
    (h : hunt_nrls filt lengths offset fc thr = .ok out) :
    ∃ edges counts m0, histogramStage lengths = .ok (edges, counts) ∧
      (minsPre (filt (counts.drop offset)) offset).head? = some m0 ∧
      out.auc = (counts.drop m0).sum ∧
      ∀ thr2, ∃ out2, hunt_nrls filt lengths offset fc thr2 = .ok out2 ∧
        out2.auc = out.auc := by
  obtain ⟨edges, counts, hh, hb, he⟩ := hunt_nrls_ok h
  obtain ⟨m0, hm0, h1, h2, hout⟩ := extremaStage_ok he
  refine ⟨edges, counts, m0, hh, hm0, by rw [hout], fun thr2 => ?_⟩
  refine ⟨⟨pruneByCount counts thr2 (maxesPre (filt (counts.drop offset)) offset),
           pruneByCount counts thr2 (minsPre (filt (counts.drop offset)) offset),
           out.auc⟩, ?_, rfl⟩
  unfold hunt_nrls
  simp only [hh, hb]
  exact extremaStage_ok_thr he thr2

/-- C2 witness: the AUC theorem applied to a concrete successful run with
count_thr = 10, where the pruned minima list is empty but the AUC is still
anchored at the unpruned first minimum. -/
theorem C2_witness :
    ∃ edges counts m0, histogramStage [1, 2, 2, 3, 3, 3] = .ok (edges, counts) ∧
      (minsPre ((fun _ => [0, 1, 0, 1]) (counts.drop 0)) 0).head? = some m0 ∧
      (NrlOut.mk [] [] 5).auc = (counts.drop m0).sum ∧
      ∀ thr2, ∃ out2,
        hunt_nrls (fun _ => [0, 1, 0, 1]) [1, 2, 2, 3, 3, 3] 0 40 thr2 = .ok out2 ∧
          out2.auc = (NrlOut.mk [] [] 5).auc :=
  C2_auc_first_unpruned_min (fun _ => [0, 1, 0, 1]) [1, 2, 2, 3, 3, 3] 0 40 10
    ⟨[], [], 5⟩ eval_hunt_40_10

/-- C5, counterexample to the second half of the claim as stated: with raw
counts [5, 0, 5, 2] and filtered signal [0, 1, 0, 1] the classified minima
list is [1], but with count_thr = 0 the retained minima list is empty, because
the raw count at index 1 is 0 and the pruning test counts[i] > 0 is strict:
the retained sets at count_thr = 0 are NOT always the full classified sets. -/
theorem C5_counterexample :
    extremaStage [5, 0, 5, 2] [0, 1, 0, 1] 0 0 = .ok ⟨[2], [], 7⟩ ∧
      minsPre [0, 1, 0, 1] 0 = [1] ∧ ([] : List ℕ) ≠ [1] :=
  ⟨eval_extrema_zero_thr, eval_minsPre_0101, by decide⟩

/-- C5 (amended): after threshold pruning every retained extremum index i
satisfies counts[i] > count_thr (and is in range); and when count_thr = 0 the
retained lists equal the classified lists exactly when every classified
extremum index has a strictly positive raw count — a classified extremum
sitting on a zero-count bin is dropped even at count_thr = 0. -/
theorem C5_prune_threshold (counts : List ℕ) (cf : List ℚ) (offset thr : ℕ)
    (out : NrlOut) (h : extremaStage counts cf offset thr = .ok out) :
    (∀ i ∈ out.maxes, i < counts.length ∧ thr < counts.getD i 0) ∧
      (∀ i ∈ out.mins, i < counts.length ∧ thr < counts.getD i 0) ∧
      (thr = 0 →
        ((out.maxes = maxesPre cf offset) ↔
          ∀ i ∈ maxesPre cf offset, 0 < counts.getD i 0) ∧
        ((out.mins = minsPre cf offset) ↔
          ∀ i ∈ minsPre cf offset, 0 < counts.getD i 0)) := by
  obtain ⟨m0, hm0, h1, h2, hout⟩ := extremaStage_ok h
  subst hout
  rw [List.all_eq_true] at h1 h2
  refine ⟨?_, ?_, ?_⟩
  · intro i hi
    simp only [pruneByCount] at hi
    exact ⟨of_decide_eq_true (h1 i (List.mem_filter.mp hi).1),
      of_decide_eq_true (List.mem_filter.mp hi).2⟩
  · intro i hi
    simp only [pruneByCount] at hi
    exact ⟨of_decide_eq_true (h2 i (List.mem_filter.mp hi).1),
      of_decide_eq_true (List.mem_filter.mp hi).2⟩
  · rintro rfl
    constructor
    · simp only [pruneByCount, List.filter_eq_self, decide_eq_true_eq]
    · simp only [pruneByCount, List.filter_eq_self, decide_eq_true_eq]

/-- C5 witness: the pruning theorem applied to a concrete successful run of
the extrema stage with count_thr = 0. -/
theorem C5_witness :
    (∀ i ∈ (NrlOut.mk [2] [] 7).maxes,
        i < ([5, 0, 5, 2] : List ℕ).length ∧ 0 < ([5, 0, 5, 2] : List ℕ).getD i 0) ∧
      (∀ i ∈ (NrlOut.mk [2] [] 7).mins,
        i < ([5, 0, 5, 2] : List ℕ).length ∧ 0 < ([5, 0, 5, 2] : List ℕ).getD i 0) ∧
      (0 = 0 →
        (((NrlOut.mk [2] [] 7).maxes = maxesPre [0, 1, 0, 1] 0) ↔
          ∀ i ∈ maxesPre [0, 1, 0, 1] 0, 0 < ([5, 0, 5, 2] : List ℕ).getD i 0) ∧
        (((NrlOut.mk [2] [] 7).mins = minsPre [0, 1, 0, 1] 0) ↔
          ∀ i ∈ minsPre [0, 1, 0, 1] 0, 0 < ([5, 0, 5, 2] : List ℕ).getD i 0)) :=
  C5_prune_threshold [5, 0, 5, 2] [0, 1, 0, 1] 0 0 ⟨[2], [], 7⟩
    eval_extrema_zero_thr

theorem eval_hunt_600_0 :
    hunt_nrls (fun _ => [0, 1, 0, 1]) [1, 2, 2, 3, 3, 3] 0 600 0 = .ok ⟨[2], [1], 5⟩ := by
  norm_num [hunt_nrls, eval_hist_123, butterCheck, extremaStage, classify_isOk,
    eval_maxesPre_0101, eval_minsPre_0101, pruneByCount]

/-- C6, counterexample to the claim as stated: on the empty input the pipeline
fails with the ValueError propagated from np.max over an empty sequence, not
with EmptyInputError; the source contains no explicit emptiness check and no
EmptyInputError class. -/
theorem C6_counterexample :
    hunt_nrls (fun _ => []) [] 75 40 10 = .error .valueError ∧
      PyError.valueError ≠ PyError.emptyInputError :=
  ⟨rfl, by decide⟩

/-- C6 (amended): for every filter, offset, cutoff and threshold, running the
pipeline on an empty input sequence fails with the ValueError raised by
np.max over an empty sequence (there is no explicit emptiness check and no
EmptyInputError in the code). -/
theorem C6_empty_input_value_error (filt : List ℕ → List ℚ) (offset : ℕ)
    (fc : ℚ) (thr : ℕ) :
    hunt_nrls filt [] offset fc thr = .error .valueError := rfl

theorem eval_not_valid_2000 : ¬ ((0 : ℚ) < 2000 ∧ (2000 : ℚ) < 1000) := by
  norm_num

/-- C7, counterexample to the claim as stated: at freq_cutoff = 600 the
normalized cutoff 0.6 lies outside the spec's claimed valid range (0, 500)
viewed in the freq_cutoff scale, yet the filter design does NOT fail — scipy
accepts every normalized critical frequency in (0, 1) — and the whole
pipeline runs to success. -/
theorem C7_counterexample :
    butterCheck 600 = .ok () ∧ ¬ ((0 : ℚ) < 600 ∧ (600 : ℚ) < 500) ∧
      hunt_nrls (fun _ => [0, 1, 0, 1]) [1, 2, 2, 3, 3, 3] 0 600 0 = .ok ⟨[2], [1], 5⟩ := by
  refine ⟨?_, by norm_num, eval_hunt_600_0⟩
  norm_num [butterCheck]

/-- C7 (amended): the filter design step succeeds exactly when
freq_cutoff/1000 lies in the open interval (0, 1), i.e. freq_cutoff in
(0, 1000); outside that range it fails with scipy's ValueError — the code
defines no InvalidCutoffError. -/
theorem C7_butter_valid_iff (fc : ℚ) :
    (butterCheck fc = .ok () ↔ 0 < fc ∧ fc < 1000) ∧
      (¬ (0 < fc ∧ fc < 1000) → butterCheck fc = .error .valueError) := by
  have hc : (0 < fc * 1 / 1000 ∧ fc * 1 / 1000 < 1) ↔ (0 < fc ∧ fc < 1000) := by
    rw [mul_one, div_lt_one (by norm_num : (0 : ℚ) < 1000),
      lt_div_iff₀ (by norm_num : (0 : ℚ) < 1000), zero_mul]
  constructor
  · unfold butterCheck
    split_ifs with h
    · exact iff_of_true rfl (hc.mp h)
    · exact iff_of_false (by simp) (fun hcon => h (hc.mpr hcon))
  · intro hn
    unfold butterCheck
    rw [if_neg (fun hcon => hn (hc.mp hcon))]

/-- C7 witness: the validity theorem applied at the concrete cutoff 2000,
which is rejected with scipy's ValueError. -/
theorem C7_witness :
    (butterCheck 2000 = .ok () ↔ (0 : ℚ) < 2000 ∧ (2000 : ℚ) < 1000) ∧
      butterCheck 2000 = .error .valueError :=
  ⟨(C7_butter_valid_iff 2000).1, (C7_butter_valid_iff 2000).2 eval_not_valid_2000⟩

theorem inBin_eq (m i L : ℕ) : inBin m i L = decide (L = i + 1) := by
  unfold inBin
  by_cases h : i = m - 1
  · rw [if_pos h, ← Bool.decide_and, decide_eq_decide]
    constructor
    · rintro ⟨h1, h2⟩
      have hl : i < L := by exact_mod_cast (by linarith : (i : ℚ) < L)
      have hl2 : L < i + 2 := by exact_mod_cast (by linarith : (L : ℚ) < (i : ℚ) + 2)
      omega
    · rintro rfl
      constructor <;> push_cast <;> linarith
  · rw [if_neg h, ← Bool.decide_and, decide_eq_decide]
    constructor
    · rintro ⟨h1, h2⟩
      have hl : i < L := by exact_mod_cast (by linarith : (i : ℚ) < L)
      have hl2 : L < i + 2 := by exact_mod_cast (by linarith : (L : ℚ) < (i : ℚ) + 2)
      omega
    · rintro rfl
      constructor <;> push_cast <;> linarith

theorem length_filter_cons (p : ℕ → Bool) (x : ℕ) (ls : List ℕ) :
    ((x :: ls).filter p).length = (if p x then 1 else 0) + (ls.filter p).length := by
  rw [List.filter_cons]
  split_ifs
  · simp
    omega
  · simp

theorem sum_map_add {α : Type} (l : List α) (f g : α → ℕ) :
    (l.map (fun a => f a + g a)).sum = (l.map f).sum + (l.map g).sum := by
  induction l with
  | nil => simp
  | cons x ls ih => simp [ih]; omega

theorem indicator_sum (L m : ℕ) :
    ((List.range m).map (fun i => if L = i + 1 then 1 else 0)).sum
      = if 1 ≤ L ∧ L ≤ m then 1 else 0 := by
  induction m with
  | zero =>
    rw [List.range_zero, List.map_nil, List.sum_nil]
    split_ifs with h
    · omega
    · rfl
  | succ n ih =>
    rw [List.range_succ, List.map_append, List.sum_append, ih]
    simp only [List.map_cons, List.map_nil, List.sum_cons, List.sum_nil]
    split_ifs <;> omega

theorem histogramCounts_sum (m : ℕ) (lengths : List ℕ) :
    (histogramCounts m lengths).sum
      = (lengths.filter (fun L => decide (1 ≤ L) && decide (L ≤ m))).length := by
  induction lengths with
  | nil => simp [histogramCounts]
  | cons x ls ih =>
    have hstep : histogramCounts m (x :: ls)
        = (List.range m).map
            (fun i => (if inBin m i x then 1 else 0) + (ls.filter (inBin m i)).length) := by
      unfold histogramCounts
      exact List.map_congr_left (fun i _ => length_filter_cons (inBin m i) x ls)
    have h1 : ((List.range m).map (fun i => if inBin m i x then 1 else 0)).sum
        = if 1 ≤ x ∧ x ≤ m then 1 else 0 := by
      have hpt : ∀ i ∈ List.range m,
          (if inBin m i x then (1 : ℕ) else 0) = (if x = i + 1 then 1 else 0) := by
        intro i _
        rw [inBin_eq]
        simp only [decide_eq_true_eq]
      rw [List.map_congr_left hpt, indicator_sum]
    have h2 : ((List.range m).map (fun i => (ls.filter (inBin m i)).length)).sum
        = (ls.filter (fun L => decide (1 ≤ L) && decide (L ≤ m))).length := ih
    rw [hstep, sum_map_add, h1, h2, length_filter_cons]
    have h3 : (if (decide (1 ≤ x) && decide (x ≤ m)) = true then (1 : ℕ) else 0)
        = if 1 ≤ x ∧ x ≤ m then 1 else 0 := by
      simp only [Bool.and_eq_true, decide_eq_true_eq]
    rw [h3]

theorem foldl_max_bound : ∀ (ls : List ℕ) (a : ℕ),
    a ≤ ls.foldl max a ∧ ∀ x ∈ ls, x ≤ ls.foldl max a := by
  intro ls
  induction ls with
  | nil => intro a; simp
  | cons y t ih =>
    intro a
    refine ⟨le_trans (le_max_left a y) (ih (max a y)).1, ?_⟩
    intro x hx
    rcases List.mem_cons.mp hx with rfl | hx
    · exact le_trans (le_max_right a x) (ih (max a x)).1
    · exact (ih (max a y)).2 x hx

/-- C3, counterexample to the claim as stated: the non-negative length 0 is a
legal input value, but it falls below the first bin edge 0.5 and is dropped
by np.histogram, so for lengths = [0, 3] the bin counts sum to 1, not to
len(lengths) = 2. -/
theorem C3_counterexample :
    histogramStage [0, 3] = .ok ([1, 2, 3], [0, 0, 1]) ∧
      ([0, 0, 1] : List ℕ).sum ≠ ([0, 3] : List ℕ).length :=
  ⟨eval_hist_03, by decide⟩

/-- C3 (amended): for every input sequence on which the histogram stage
succeeds, the bin counts sum to the number of STRICTLY POSITIVE input
lengths; lengths equal to 0 lie below the first bin edge 0.5 and are not
counted, so the sum equals len(L) exactly when no length is zero. -/
theorem C3_counts_sum_positive_lengths (lengths : List ℕ) (edges : List ℚ)
    (counts : List ℕ) (h : histogramStage lengths = .ok (edges, counts)) :
    counts.sum = (lengths.filter (fun L => decide (1 ≤ L))).length := by
  unfold histogramStage at h
  split at h
  · cases h
  · rename_i m heq
    cases h
    rw [histogramCounts_sum]
    have hall : ∀ L ∈ lengths, L ≤ m := by
      cases lengths with
      | nil => exact Except.noConfusion heq
      | cons x xs =>
        injection heq with hm
        subst hm
        intro L hL
        rcases List.mem_cons.mp hL with rfl | hL
        · exact (foldl_max_bound xs L).1
        · exact (foldl_max_bound xs x).2 L hL
    congr 1
    apply List.filter_congr
    intro L hL
    rw [decide_eq_true (hall L hL)]
    exact Bool.and_true _

/-- C3 witness: the amended sum theorem applied to the concrete input
[0, 3]: the counts sum to 1, the number of strictly positive lengths. -/
theorem C3_witness :
    ([0, 0, 1] : List ℕ).sum
      = (([0, 3] : List ℕ).filter (fun L => decide (1 ≤ L))).length :=
  C3_counts_sum_positive_lengths [0, 3] [1, 2, 3] [0, 0, 1] eval_hist_03

/-- C4, counterexample to the claim as stated: for lengths = [3] the produced
bin_edges value is [1, 2, 3], not the claimed [0.5, 1.5, 2.5] running from
0.5 to max(lengths) - 0.5. -/
theorem C4_counterexample :
    histogramStage [3] = .ok ([1, 2, 3], [0, 0, 1]) ∧
      ([1, 2, 3] : List ℚ) ≠ [1/2, 3/2, 5/2] :=
  ⟨eval_hist_3, by norm_num⟩

/-- C4 (amended): the bin-edge values of the produced Histogram run from 1 to
max(lengths) in steps of exactly 1 (the edges handed to np.histogram run from
0.5 to max + 0.5; the book-keeping bin_edges[1:] - 0.5 stored in the result
yields the integer bin centers 1, 2, ..., max). -/
theorem C4_bin_edges_one_to_max (lengths : List ℕ) (edges : List ℚ)
    (counts : List ℕ) (h : histogramStage lengths = .ok (edges, counts)) :
    ∃ m, npMax lengths = .ok m ∧
      edges = (List.range m).map (fun (k : ℕ) => (k : ℚ) + 1) := by
  unfold histogramStage at h
  split at h
  · cases h
  · rename_i m heq
    cases h
    refine ⟨m, heq, ?_⟩
    rw [arangeHalf, List.range_succ_eq_map]
    simp only [List.map_cons, List.drop_one, List.tail_cons, List.map_map]
    apply List.map_congr_left
    intro k _
    simp only [Function.comp_apply]
    push_cast
    ring

/-- C4 witness: the amended bin-edge theorem applied to the concrete input
[3], whose produced edges are [1, 2, 3]. -/
theorem C4_witness :
    ∃ m, npMax [3] = .ok m ∧
      ([1, 2, 3] : List ℚ) = (List.range m).map (fun (k : ℕ) => (k : ℚ) + 1) :=
  C4_bin_edges_one_to_max [3] [1, 2, 3] [0, 0, 1] eval_hist_3
